import Mathlib

/-!
# A verification development for the reactivego/scheduler package

Shallow embedding of the scheduler package (trampoline.go, goroutine.go,
immediate.go) in Lean 4, with theorems settling the specification's claims
about task ordering, cancellation, draining, and the concurrent scheduler's
active-task accounting.

Modelling conventions:
* Instants (`time.Time`) are integers (milliseconds); `Before` is `<` and
  `time.Until(at)` is `at - now`.
* A cancellation channel (`chan struct{}`) is identified by a natural-number
  id; the observable state of a channel is whether it has been closed.
  Closing a channel is modelled by `closeChan`, which returns a run-time
  error (Go panics) when the channel is already closed.
* `sort.Stable` is modelled by `sortStable`, an insertion sort.  `sort.Stable`
  guarantees a stable sort, and the output of a stable sort is uniquely
  determined by the comparison function and the input order, so any stable
  sorting algorithm is a faithful model.
* A task body is identified by its `runid`.  The effect of running a task
  (the tasks it schedules and the cancellation channels it closes, both of
  which can only happen on the single thread that owns the trampoline) is
  given to the drain loop as a parameter `eff : Nat → Int → List futuretask × List Nat`.
* The cooperative spin loop of `ShortWaitAndRun` advances the model clock by
  one unit per `runtime.Gosched()`; running a task takes zero model time.
-/

/-- State of a Go channel used as a cancellation signal: it is either still
open or has been closed. -/
inductive ChanState where
  | opened
  | closed
deriving Repr, DecidableEq

/-- Go `close(ch)`.  Closing an already-closed channel panics at run time
("close of closed channel"); the panic is modelled as an error result. -/
def closeChan : ChanState → Except String ChanState
  | ChanState.opened => Except.ok ChanState.closed
  | ChanState.closed => Except.error "close of closed channel"

/-- `futuretask` (trampoline.go lines 12-16).  The Go field `at` is called
`due` here (`at` is reserved in Lean): the absolute instant at which the task
becomes eligible.  `run` is identified by `runid`, and `cancel` is the id of
the task's cancellation channel. -/
structure futuretask where
  due : Int
  runid : Nat
  cancel : Nat
deriving Repr, DecidableEq

/-- `futuretask.Cancel` (trampoline.go lines 18-22):
`if t.cancel != nil { close(t.cancel) }`.  The argument is the state of the
task's `cancel` field: `none` models a nil channel, `some st` a channel in
state `st`. -/
def futuretask.Cancel : Option ChanState → Except String (Option ChanState)
  | none => Except.ok none
  | some st => (closeChan st).map some

/-- The `cancel` type of goroutine.go (lines 26-30): `func (c cancel) Cancel()
{ close(c) }`, applied to the state of the channel `c`. -/
def cancel.Cancel : ChanState → Except String ChanState := closeChan

/-- Ordering used by `trampoline.Less` (trampoline.go lines 53-55):
`s.tasks[i].at.Before(s.tasks[j].at)` is strict `<` on instants; the
corresponding non-strict order on queue entries. -/
def atLE (a b : futuretask) : Prop := a.due ≤ b.due

/-- One insertion step of the insertion sort modelling `sort.Stable`:
the element is placed before the first entry whose due time is not smaller,
so an element is never moved past an equal one. -/
def insertStep (t : futuretask) : List futuretask → List futuretask
  | [] => [t]
  | x :: xs => if x.due < t.due then x :: insertStep t xs else t :: x :: xs

/-- Model of `sort.Stable(s)` on the task queue (stable sort by `at`
ascending): insertion sort, which is stable.  The output of a stable sort is
uniquely determined, so this is a faithful model of `sort.Stable`. -/
def sortStable (l : List futuretask) : List futuretask := l.foldr insertStep []

/-- Inserting a new entry at the end of its due-time class: the position
`sort.Stable` gives to a newly appended entry when the rest of the queue is
already sorted (after all entries with an equal or earlier due time). -/
def insertEnd (t : futuretask) : List futuretask → List futuretask
  | [] => [t]
  | x :: xs => if t.due < x.due then t :: x :: xs else x :: insertEnd t xs

/-- `trampoline` (trampoline.go lines 26-30): the pending queue and the task
currently being run by `RunTask`.  The `gid` field is omitted: it is used
only by `Gosched`, which no claim is about. -/
structure trampoline where
  tasks : List futuretask
  current : Option futuretask
deriving Repr, DecidableEq

/-- `New` (trampoline.go lines 42-44): a fresh serial scheduler with an empty
queue and no running task. -/
def New : trampoline := ⟨[], none⟩

/-- `MakeTrampoline` (trampoline.go line 47) is `New`. -/
def MakeTrampoline : trampoline := New

/-- `trampoline.Schedule` (trampoline.go lines 69-74): build a task due now,
append it to the queue, re-sort stably, and return the task (its address is
the Runner) together with the new scheduler state.  `now` is the value of
`time.Now()` at the call; `rid` and `can` are the ids of the task body and of
the freshly made cancellation channel. -/
def trampoline.Schedule (s : trampoline) (now : Int) (rid can : Nat) :
    futuretask × trampoline :=
  (⟨now, rid, can⟩, { s with tasks := sortStable (s.tasks ++ [⟨now, rid, can⟩]) })

/-- `trampoline.ScheduleFuture` (trampoline.go lines 106-111): the same with
`at = time.Now().Add(due)`. -/
def trampoline.ScheduleFuture (s : trampoline) (now due : Int) (rid can : Nat) :
    futuretask × trampoline :=
  (⟨now + due, rid, can⟩,
   { s with tasks := sortStable (s.tasks ++ [⟨now + due, rid, can⟩]) })

/-- `trampoline.ScheduleRecursive` (trampoline.go lines 76-88): a single
`futuretask` with one cancellation channel is created; `again` stamps it with
`at = time.Now()` and appends a copy of it (same `run`, same `cancel`) to the
queue, and is called once before returning.  The state effect of the initial
`again()` is the same stable insert as `Schedule`; the effect of the `again`
calls made by later iterations is a drain-loop parameter (`chainEff`). -/
def trampoline.ScheduleRecursive (s : trampoline) (now : Int) (rid can : Nat) :
    futuretask × trampoline :=
  (⟨now, rid, can⟩, { s with tasks := sortStable (s.tasks ++ [⟨now, rid, can⟩]) })

/-- `trampoline.ScheduleFutureRecursive` (trampoline.go lines 113-125): as
`ScheduleRecursive` with `at = time.Now().Add(due)`. -/
def trampoline.ScheduleFutureRecursive (s : trampoline) (now due : Int)
    (rid can : Nat) : futuretask × trampoline :=
  (⟨now + due, rid, can⟩,
   { s with tasks := sortStable (s.tasks ++ [⟨now + due, rid, can⟩]) })

/-- The spin loop of `ShortWaitAndRun` (trampoline.go lines 157-164) followed
by the final select (lines 165-170).  `k` is the number of remaining clock
units until the due instant (each `runtime.Gosched()` advances the clock one
unit); every spin observes the cancellation signal (`closedAt now`) and
returns without running on cancellation; after the loop the final select
observes the signal once more and only then calls `task.run()` (modelled by
returning `some rid`). -/
def shortLoop (closedAt : Int → Bool) (rid : Nat) : Nat → Int → Option Nat
  | 0, now => if closedAt now then none else some rid
  | k + 1, now => if closedAt now then none else shortLoop closedAt rid k (now + 1)

/-- `trampoline.ShortWaitAndRun` (trampoline.go lines 156-171): spin while
`time.Now().Before(task.at)`, checking the cancellation channel, then run the
task unless the channel is closed.  Returns `some t.runid` iff the task body
was executed. -/
def ShortWaitAndRun (closedAt : Int → Bool) (t : futuretask) (now : Int) :
    Option Nat :=
  shortLoop closedAt t.runid (t.due - now).toNat now

/-- `trampoline.LongWaitAndRun` (trampoline.go lines 173-192): if the due
time is still ahead, arm a timer and select between the cancellation channel
and the timer (the cancellation branch is taken iff the signal is closed by
the time the timer fires, i.e. at `t.due`); otherwise do the final select at
`now` and run unless canceled. -/
def LongWaitAndRun (closedAt : Int → Bool) (t : futuretask) (now : Int) :
    Option Nat :=
  if 0 < t.due - now then
    if closedAt t.due then none else some t.runid
  else
    if closedAt now then none else some t.runid

/-- Observation of a cancellation channel `c` given the set of channels
closed so far; constant in time between drain steps (within one drain step
the set can only change when the running task itself closes a channel, which
takes effect at the next step). -/
def chanClosed (closed : List Nat) (c : Nat) : Int → Bool :=
  fun _ => decide (c ∈ closed)

/-- The tasks scheduled by a running task body are enqueued one at a time,
each by the append-and-stable-sort step of `Schedule`/`ScheduleFuture`. -/
def enqueueAll (l : List futuretask) (q : List futuretask) : List futuretask :=
  l.foldl (fun acc u => sortStable (acc ++ [u])) q

/-- `trampoline.RunTask` (trampoline.go lines 141-154): if the queue is empty
return `none` (Go: `false`); otherwise pop the head into `current`, wait and
run it with the short strategy when `time.Until(at) < 999ms` and the long
strategy otherwise, then clear `current`.  The result carries the new state,
the new set of closed channels, the clock after the wait (`max now t.due`),
and the id of the task body if it was executed.  `eff rid fin` gives the
tasks scheduled and the channels closed by body `rid` when run at instant
`fin`. -/
def trampoline.RunTask (eff : Nat → Int → List futuretask × List Nat)
    (closed : List Nat) (now : Int) (s : trampoline) :
    Option (trampoline × List Nat × Int × Option Nat) :=
  match s.tasks with
  | [] => none
  | t :: rest =>
    match (if t.due - now < 999 then ShortWaitAndRun (chanClosed closed t.cancel) t now
           else LongWaitAndRun (chanClosed closed t.cancel) t now) with
    | none => some ({ tasks := rest, current := none }, closed, max now t.due, none)
    | some rid =>
      some ({ tasks := enqueueAll (eff rid (max now t.due)).1 rest, current := none },
            closed ++ (eff rid (max now t.due)).2, max now t.due, some rid)

/-- `trampoline.Wait` (trampoline.go lines 127-130): `for s.RunTask() {}`,
with explicit fuel.  Returns whether the loop terminated because `RunTask`
reported an empty queue (`true`) or the fuel ran out with work left
(`false`), together with the final state, the final clock, and the ids of
the task bodies executed, in execution order. -/
def trampoline.Wait (eff : Nat → Int → List futuretask × List Nat) :
    Nat → List Nat → Int → trampoline → Bool × trampoline × Int × List Nat
  | 0, _, now, s => (s.tasks.isEmpty, s, now, [])
  | fuel + 1, closed, now, s =>
    match trampoline.RunTask eff closed now s with
    | none => (true, s, now, [])
    | some (s2, closed2, now2, r) =>
      let w := trampoline.Wait eff fuel closed2 now2 s2
      (w.1, w.2.1, w.2.2.1, r.toList ++ w.2.2.2)

/-- `trampoline.Count` (trampoline.go lines 198-204): the queued tasks, plus
one when a task is currently executing. -/
def trampoline.Count (s : trampoline) : Nat :=
  match s.current with
  | none => s.tasks.length
  | some _ => s.tasks.length + 1

/-- Effect of a task body that schedules nothing and closes nothing. -/
def noEff : Nat → Int → List futuretask × List Nat := fun _ _ => ([], [])

/-- A submission sequence for the ordering claim: the i-th submission is a
task due at `ats[i]`, with body id and cancellation channel id `i` (`i`
records the enqueue order). -/
def tagTasks : List Int → Nat → List futuretask
  | [], _ => []
  | a :: rest, i => ⟨a, i, i⟩ :: tagTasks rest (i + 1)

/-- Submitting a sequence of tasks to a fresh serial scheduler, each through
`trampoline.Schedule` at the instant equal to its due time. -/
def submitAll (l : List futuretask) : trampoline :=
  l.foldl (fun s t => (trampoline.Schedule s t.due t.runid t.cancel).2) ⟨[], none⟩

/-- Effect of the recursive task of `ScheduleRecursive`: iteration `i`, when
run at instant `fin`, calls `again()` iff `body i`, which appends the next
iteration of the same `futuretask` — same cancellation channel `0`, due now
(`fin`).  No channel is closed. -/
def chainEff (body : Nat → Bool) : Nat → Int → List futuretask × List Nat :=
  fun i fin => (if body i then [⟨fin, i + 1, 0⟩] else [], [])

/-- Effect of a recursive task that always calls `again` (rescheduling the
next iteration with delay `d` on the shared cancellation channel `0`) and
that, at iteration `c`, also calls `Cancel` on the Runner returned by
`ScheduleRecursive`/`ScheduleFutureRecursive` (closing channel `0`). -/
def chainCancelEff (c : Nat) (d : Int) : Nat → Int → List futuretask × List Nat :=
  fun i fin => ([⟨fin + d, i + 1, 0⟩], if i = c then [0] else [])

/-- Result of the concurrent scheduler's recursive scheduling operations:
how many execution units were started, the Runner handed back to the caller
through the single-slot channel, and the outcome of the private serial
scheduler's drain. -/
structure SRResult where
  unitsStarted : Nat
  runner : Nat
  completed : Bool
  final : trampoline
  trace : List Nat
deriving Repr

/-- `goroutine.ScheduleRecursive` (goroutine.go lines 66-78): start one
goroutine; inside it create a fresh private trampoline with
`MakeTrampoline()`, call its `ScheduleRecursive`, send the resulting Runner
on the one-slot channel `runner`, then `trampoline.Wait()`.  The caller
returns `<-runner`.  The handoff happens before the drain, so `runner` is
computed from the pre-drain state and does not depend on the drain fuel. -/
def goroutine.ScheduleRecursive (body : Nat → Bool) (fuel : Nat) (now : Int) :
    SRResult :=
  { unitsStarted := 1
    runner := (trampoline.ScheduleRecursive MakeTrampoline now 0 0).1.cancel
    completed := (trampoline.Wait (chainEff body) fuel [] now
      (trampoline.ScheduleRecursive MakeTrampoline now 0 0).2).1
    final := (trampoline.Wait (chainEff body) fuel [] now
      (trampoline.ScheduleRecursive MakeTrampoline now 0 0).2).2.1
    trace := (trampoline.Wait (chainEff body) fuel [] now
      (trampoline.ScheduleRecursive MakeTrampoline now 0 0).2).2.2.2 }

/-- `goroutine.ScheduleFutureRecursive` (goroutine.go lines 107-119): the
same delegation pattern through the private trampoline's
`ScheduleFutureRecursive`. -/
def goroutine.ScheduleFutureRecursive (body : Nat → Bool) (due : Int)
    (fuel : Nat) (now : Int) : SRResult :=
  { unitsStarted := 1
    runner := (trampoline.ScheduleFutureRecursive MakeTrampoline now due 0 0).1.cancel
    completed := (trampoline.Wait (chainEff body) fuel [] now
      (trampoline.ScheduleFutureRecursive MakeTrampoline now due 0 0).2).1
    final := (trampoline.Wait (chainEff body) fuel [] now
      (trampoline.ScheduleFutureRecursive MakeTrampoline now due 0 0).2).2.1
    trace := (trampoline.Wait (chainEff body) fuel [] now
      (trampoline.ScheduleFutureRecursive MakeTrampoline now due 0 0).2).2.2.2 }

/-- State of the concurrent scheduler's bookkeeping (goroutine.go lines
34-39): the atomic `active` counter (an `int32`), the `sync.WaitGroup`
counter `wg` (`concurrent`), and the ghost number of execution units started
but not yet finished. -/
structure GoState where
  active : Int
  wg : Nat
  inflight : Nat
deriving Repr, DecidableEq

/-- One event of the concurrent scheduler's dispatch protocol (goroutine.go
lines 49-64, 80-105): `spawn` is a Schedule/ScheduleFuture/recursive call —
`atomic.AddInt32(&s.active, 1)` and `s.concurrent.Add(1)` before the
goroutine starts; `finish` is the guaranteed-run deferred cleanup
(`defer atomic.AddInt32(&s.active, -1)`, `defer s.concurrent.Done()`) when a
unit ends, whether its task ran or was skipped because the cancellation
signal was observed at start time.  A unit can only finish if it is in
flight, and it finishes exactly once (the deferred cleanup runs once). -/
inductive GoStep : GoState → GoState → Prop where
  | spawn (s : GoState) : GoStep s ⟨s.active + 1, s.wg + 1, s.inflight + 1⟩
  | finish (s : GoState) (h : 0 < s.inflight) :
      GoStep s ⟨s.active - 1, s.wg - 1, s.inflight - 1⟩

/-- States reachable by the concurrent scheduler's dispatch protocol from
the initial state of `MakeGoroutine` (all counters zero). -/
inductive GoReach : GoState → Prop where
  | init : GoReach ⟨0, 0, 0⟩
  | step {s s2 : GoState} : GoReach s → GoStep s s2 → GoReach s2

/-- Modelled from the spec: the concurrent scheduler's `Count()` method is
not present in the provided goroutine.go source (its test caller
`Example_concurrent` uses it); per the spec, `Count() -> int` is the "number
of tasks currently queued or running", which for the concurrent scheduler is
the active-task counter. -/
def goroutine.Count (s : GoState) : Int := s.active

/-- `goroutine.Wait` (goroutine.go lines 121-123): `s.concurrent.Wait()`
blocks until the WaitGroup counter reaches zero; this is the condition on
which it unblocks. -/
def goroutine.waitDone (s : GoState) : Bool := s.wg == 0

/-- An action of a task body, for contrasting the immediate and the serial
scheduler (immediate.go vs trampoline.go): emit an observable label, or call
`Schedule` on the same scheduler with a nested task. -/
inductive Act where
  | emit (label : Nat)
  | sched (sub : List Act)
deriving Repr

mutual
/-- Execute one action on the `immediate` scheduler: `Schedule` (immediate.go
lines 18-20) runs the nested task synchronously, in the caller's own thread
of control, before the next action of the outer task. -/
def runAct : Act → List Nat
  | Act.emit l => [l]
  | Act.sched sub => runActs sub

/-- Execute a task body (a list of actions) on the `immediate` scheduler,
collecting the emitted labels in execution order. -/
def runActs : List Act → List Nat
  | [] => []
  | a :: rest => runAct a ++ runActs rest
end

/-- `immediate.Schedule` (immediate.go lines 18-20): `task()` — run the task
synchronously and return its trace. -/
def immediate.Schedule (task : List Act) : List Nat := runActs task

/-- `immediate.ScheduleFuture` (immediate.go lines 26-29):
`time.Sleep(due); task()` — block (a Sleep with a non-positive duration
returns immediately), then run the task in the caller's thread of control.
Returns the clock after the call and the trace. -/
def immediate.ScheduleFuture (now due : Int) (task : List Act) :
    Int × List Nat :=
  (now + max due 0, runActs task)

/-- Run a task body on the serial scheduler: the emitted labels, and the
nested tasks passed to `Schedule`, which are only enqueued (due now, hence
after everything already queued, in call order — the stable queue of
trampoline.go). -/
def splitActs : List Act → List Nat × List (List Act)
  | [] => ([], [])
  | Act.emit l :: rest => ((splitActs rest).1.cons l, (splitActs rest).2)
  | Act.sched sub :: rest => ((splitActs rest).1, sub :: (splitActs rest).2)

/-- The serial scheduler's drain of a queue of same-instant tasks
(trampoline.Wait with all due times equal and no cancellation): pop the
front task, run it to completion, append what it scheduled, repeat. -/
def serialDrain : Nat → List (List Act) → List Nat
  | 0, _ => []
  | _ + 1, [] => []
  | fuel + 1, t :: q => (splitActs t).1 ++ serialDrain fuel (q ++ (splitActs t).2)

/-! ## Properties of the stable sort -/

theorem insertStep_perm (t : futuretask) (q : List futuretask) :
    (insertStep t q).Perm (t :: q) := by
  induction q with
  | nil => exact List.Perm.refl _
  | cons x xs ih =>
    rw [insertStep]
    split
    · exact (ih.cons x).trans (List.Perm.swap t x xs)
    · exact List.Perm.refl _

theorem sortStable_perm (l : List futuretask) : (sortStable l).Perm l := by
  induction l with
  | nil => exact List.Perm.refl _
  | cons x xs ih =>
    have : sortStable (x :: xs) = insertStep x (sortStable xs) := rfl
    rw [this]
    exact (insertStep_perm x (sortStable xs)).trans (ih.cons x)

theorem insertStep_pairwise {t : futuretask} {q : List futuretask}
    (h : q.Pairwise atLE) : (insertStep t q).Pairwise atLE := by
  induction q with
  | nil => simp [insertStep, atLE]
  | cons x xs ih =>
    rw [List.pairwise_cons] at h
    rw [insertStep]
    split
    · rename_i hlt
      rw [List.pairwise_cons]
      refine ⟨fun y hy => ?_, ih h.2⟩
      rcases List.mem_cons.mp ((insertStep_perm t xs).mem_iff.mp hy) with hy2 | hy2
      · subst hy2; exact le_of_lt hlt
      · exact h.1 y hy2
    · rename_i hge
      rw [List.pairwise_cons]
      refine ⟨fun y hy => ?_, List.pairwise_cons.mpr h⟩
      rcases List.mem_cons.mp hy with hy2 | hy2
      · subst hy2; exact le_of_not_lt hge
      · exact le_trans (le_of_not_lt hge) (h.1 y hy2)

theorem sortStable_pairwise (l : List futuretask) :
    (sortStable l).Pairwise atLE := by
  induction l with
  | nil => exact List.Pairwise.nil
  | cons x xs ih => exact insertStep_pairwise ih

theorem insertStep_filter (t : futuretask) (q : List futuretask) (d : Int) :
    (insertStep t q).filter (fun u => decide (u.due = d))
      = (if t.due = d then [t] else [])
        ++ q.filter (fun u => decide (u.due = d)) := by
  induction q with
  | nil =>
    rw [insertStep]
    by_cases h : t.due = d <;> simp [h]
  | cons x xs ih =>
    rw [insertStep]
    split
    · rename_i hlt
      by_cases hx : x.due = d
      · have ht : ¬ t.due = d := by
          intro ht; rw [ht, ← hx] at hlt; exact lt_irrefl _ hlt
        simp [List.filter_cons, hx, ht, ih]
      · simp [List.filter_cons, hx, ih]
    · by_cases ht : t.due = d <;> by_cases hx : x.due = d <;>
        simp [List.filter_cons, ht, hx]

theorem sortStable_filter (l : List futuretask) (d : Int) :
    (sortStable l).filter (fun u => decide (u.due = d))
      = l.filter (fun u => decide (u.due = d)) := by
  induction l with
  | nil => rfl
  | cons x xs ih =>
    have hs : sortStable (x :: xs) = insertStep x (sortStable xs) := rfl
    rw [hs, insertStep_filter, ih, List.filter_cons]
    by_cases hx : x.due = d <;> simp [hx]

theorem insertEnd_of_all_lt {t : futuretask} {xs : List futuretask}
    (h : ∀ y ∈ xs, t.due < y.due) : insertEnd t xs = t :: xs := by
  cases xs with
  | nil => rfl
  | cons y ys =>
    rw [insertEnd, if_pos (h y (List.mem_cons_self y ys))]

theorem insertStep_of_all_ge {x : futuretask} {xs : List futuretask}
    (h : ∀ y ∈ xs, ¬ y.due < x.due) : insertStep x xs = x :: xs := by
  cases xs with
  | nil => rfl
  | cons y ys =>
    rw [insertStep, if_neg (h y (List.mem_cons_self y ys))]

/-- What `sort.Stable` does to a sorted queue with one new entry appended:
the entry moves in front of the strictly later entries only — a stable
insert sorted by due time. -/
theorem sortStable_sorted_snoc {q : List futuretask} (t : futuretask)
    (h : q.Pairwise atLE) : sortStable (q ++ [t]) = insertEnd t q := by
  induction q with
  | nil => rfl
  | cons x xs ih =>
    rw [List.pairwise_cons] at h
    have hs : sortStable ((x :: xs) ++ [t]) = insertStep x (sortStable (xs ++ [t])) := rfl
    rw [hs, ih h.2]
    by_cases hlt : t.due < x.due
    · have hxs : ∀ y ∈ xs, t.due < y.due := fun y hy => lt_of_lt_of_le hlt (h.1 y hy)
      rw [insertEnd_of_all_lt hxs, insertStep, if_pos hlt,
        insertStep_of_all_ge (fun y hy => not_lt_of_le (h.1 y hy)),
        insertEnd, if_pos hlt]
    · rw [insertEnd, if_neg hlt]
      cases xs with
      | nil =>
        show insertStep x [t] = x :: insertEnd t []
        rw [insertStep, if_neg hlt]
        rfl
      | cons y ys =>
        rw [insertEnd]
        split
        · rw [insertStep, if_neg hlt]
        · rw [insertStep, if_neg (not_lt_of_le (h.1 y (List.mem_cons_self y ys)))]

theorem insertEnd_perm (t : futuretask) (q : List futuretask) :
    (insertEnd t q).Perm (t :: q) := by
  induction q with
  | nil => exact List.Perm.refl _
  | cons x xs ih =>
    rw [insertEnd]
    split
    · exact List.Perm.refl _
    · exact (ih.cons x).trans (List.Perm.swap t x xs)

/-! ## Properties of the enqueue fold -/

theorem enqueueAll_filter (l : List futuretask) (d : Int) :
    ∀ q : List futuretask,
      (enqueueAll l q).filter (fun u => decide (u.due = d))
        = q.filter (fun u => decide (u.due = d))
          ++ l.filter (fun u => decide (u.due = d)) := by
  induction l with
  | nil => intro q; simp [enqueueAll]
  | cons t l ih =>
    intro q
    have hstep : enqueueAll (t :: l) q = enqueueAll l (sortStable (q ++ [t])) := rfl
    rw [hstep, ih, sortStable_filter, List.filter_append, List.filter_cons,
      List.append_assoc]
    by_cases ht : t.due = d <;> simp [ht]

theorem enqueueAll_pairwise (l : List futuretask) :
    ∀ q : List futuretask, q.Pairwise atLE → (enqueueAll l q).Pairwise atLE := by
  induction l with
  | nil => intro q hq; exact hq
  | cons t l ih =>
    intro q _
    exact ih (sortStable (q ++ [t])) (sortStable_pairwise _)

theorem enqueueAll_perm (l : List futuretask) :
    ∀ q : List futuretask, (enqueueAll l q).Perm (q ++ l) := by
  induction l with
  | nil => intro q; simp [enqueueAll]
  | cons t l ih =>
    intro q
    have hstep : enqueueAll (t :: l) q = enqueueAll l (sortStable (q ++ [t])) := rfl
    rw [hstep]
    refine (ih _).trans ?_
    have h1 : (sortStable (q ++ [t])).Perm (q ++ [t]) := sortStable_perm _
    refine (h1.append_right l).trans ?_
    rw [List.append_assoc]
    exact List.Perm.refl _

/-! ## Properties of the wait strategies -/

theorem shortLoop_closed_end (closedAt : Int → Bool) (rid : Nat) :
    ∀ (k : Nat) (now : Int), closedAt (now + (k : Int)) = true →
      shortLoop closedAt rid k now = none := by
  intro k
  induction k with
  | zero =>
    intro now h
    have h2 : closedAt now = true := by simpa using h
    simp [shortLoop, h2]
  | succ k ih =>
    intro now h
    by_cases hnow : closedAt now = true
    · simp [shortLoop, hnow]
    · have hnow2 : closedAt now = false := by simpa using hnow
      have h3 : closedAt (now + 1 + (k : Int)) = true := by
        have he : now + 1 + (k : Int) = now + ((k + 1 : Nat) : Int) := by
          push_cast; ring
        rw [he]; exact h
      simp [shortLoop, hnow2, ih (now + 1) h3]

theorem shortLoop_all_open (closedAt : Int → Bool) (rid : Nat) :
    ∀ (k : Nat) (now : Int),
      (∀ m : Int, now ≤ m → m ≤ now + (k : Int) → closedAt m = false) →
      shortLoop closedAt rid k now = some rid := by
  intro k
  induction k with
  | zero =>
    intro now h
    simp [shortLoop, h now le_rfl (by simp)]
  | succ k ih =>
    intro now h
    have h0 : closedAt now = false := h now le_rfl (by push_cast; omega)
    have htail := ih (now + 1) (fun m h1 h2 => h m (by omega)
      (by push_cast at h2 ⊢; omega))
    simp [shortLoop, h0, htail]

theorem shortLoop_congr (f g : Int → Bool) (rid : Nat) :
    ∀ (k : Nat) (now : Int),
      (∀ m : Int, now ≤ m → m ≤ now + (k : Int) → g m = f m) →
      shortLoop g rid k now = shortLoop f rid k now := by
  intro k
  induction k with
  | zero =>
    intro now h
    rw [shortLoop, shortLoop, h now le_rfl (by simp)]
  | succ k ih =>
    intro now h
    have hg : g now = f now := h now le_rfl (by push_cast; omega)
    have htail := ih (now + 1) (fun m h1 h2 => h m (by omega)
      (by push_cast at h2 ⊢; omega))
    rw [shortLoop, shortLoop, hg, htail]

/-- The instant at which the wait for a popped task ends and the final
cancellation check happens. -/
theorem shortWait_end_instant (t : futuretask) (now : Int) :
    now + ((t.due - now).toNat : Int) = max now t.due := by
  omega

theorem ShortWaitAndRun_const_false (t : futuretask) (now : Int) :
    ShortWaitAndRun (fun _ => false) t now = some t.runid := by
  unfold ShortWaitAndRun
  exact shortLoop_all_open _ _ _ _ (fun _ _ _ => rfl)

theorem ShortWaitAndRun_const_true (t : futuretask) (now : Int) :
    ShortWaitAndRun (fun _ => true) t now = none := by
  unfold ShortWaitAndRun
  cases (t.due - now).toNat with
  | zero => simp [shortLoop]
  | succ k => simp [shortLoop]

theorem LongWaitAndRun_const_false (t : futuretask) (now : Int) :
    LongWaitAndRun (fun _ => false) t now = some t.runid := by
  unfold LongWaitAndRun
  split <;> rfl

theorem LongWaitAndRun_const_true (t : futuretask) (now : Int) :
    LongWaitAndRun (fun _ => true) t now = none := by
  unfold LongWaitAndRun
  split <;> rfl

theorem chanClosed_of_not_mem {closed : List Nat} {c : Nat} (h : c ∉ closed) :
    chanClosed closed c = fun _ => false := by
  funext m
  simp [chanClosed, h]

theorem chanClosed_of_mem {closed : List Nat} {c : Nat} (h : c ∈ closed) :
    chanClosed closed c = fun _ => true := by
  funext m
  simp [chanClosed, h]

/-! ## Properties of the drain loop -/

theorem RunTask_cons_run (eff : Nat → Int → List futuretask × List Nat)
    (closed : List Nat) (now : Int) (t : futuretask) (rest : List futuretask)
    (cur : Option futuretask) (h : t.cancel ∉ closed) :
    trampoline.RunTask eff closed now ⟨t :: rest, cur⟩
      = some (⟨enqueueAll (eff t.runid (max now t.due)).1 rest, none⟩,
              closed ++ (eff t.runid (max now t.due)).2, max now t.due,
              some t.runid) := by
  by_cases hlt : t.due - now < 999
  · simp only [trampoline.RunTask, chanClosed_of_not_mem h, if_pos hlt,
      ShortWaitAndRun_const_false]
  · simp only [trampoline.RunTask, chanClosed_of_not_mem h, if_neg hlt,
      LongWaitAndRun_const_false]

theorem RunTask_cons_skip (eff : Nat → Int → List futuretask × List Nat)
    (closed : List Nat) (now : Int) (t : futuretask) (rest : List futuretask)
    (cur : Option futuretask) (h : t.cancel ∈ closed) :
    trampoline.RunTask eff closed now ⟨t :: rest, cur⟩
      = some (⟨rest, none⟩, closed, max now t.due, none) := by
  by_cases hlt : t.due - now < 999
  · simp only [trampoline.RunTask, chanClosed_of_mem h, if_pos hlt,
      ShortWaitAndRun_const_true]
  · simp only [trampoline.RunTask, chanClosed_of_mem h, if_neg hlt,
      LongWaitAndRun_const_true]

theorem Wait_nil (eff : Nat → Int → List futuretask × List Nat)
    (fuel : Nat) (closed : List Nat) (now : Int) :
    trampoline.Wait eff fuel closed now ⟨[], none⟩
      = (true, ⟨[], none⟩, now, []) := by
  cases fuel <;> rfl

/-- Draining a queue of never-canceled tasks that schedule nothing executes
exactly the queued task bodies, front to back. -/
theorem Wait_noEff_drains (q : List futuretask) :
    ∀ now : Int,
      (trampoline.Wait noEff q.length [] now ⟨q, none⟩).1 = true
      ∧ (trampoline.Wait noEff q.length [] now ⟨q, none⟩).2.1 = ⟨[], none⟩
      ∧ (trampoline.Wait noEff q.length [] now ⟨q, none⟩).2.2.2
          = q.map (fun t => t.runid) := by
  induction q with
  | nil => intro now; exact ⟨rfl, rfl, rfl⟩
  | cons t rest ih =>
    intro now
    have hr := RunTask_cons_run noEff [] now t rest none (by simp)
    have hq : enqueueAll (noEff t.runid (max now t.due)).1 rest = rest := rfl
    rw [hq] at hr
    have hstep : trampoline.Wait noEff (t :: rest).length [] now ⟨t :: rest, none⟩
        = ((trampoline.Wait noEff rest.length [] (max now t.due) ⟨rest, none⟩).1,
           (trampoline.Wait noEff rest.length [] (max now t.due) ⟨rest, none⟩).2.1,
           (trampoline.Wait noEff rest.length [] (max now t.due) ⟨rest, none⟩).2.2.1,
           t.runid ::
             (trampoline.Wait noEff rest.length [] (max now t.due) ⟨rest, none⟩).2.2.2) := by
      show trampoline.Wait noEff (rest.length + 1) [] now ⟨t :: rest, none⟩ = _
      rw [trampoline.Wait, hr]
      rfl
    rw [hstep]
    exact ⟨(ih (max now t.due)).1, (ih (max now t.due)).2.1, by
      rw [(ih (max now t.due)).2.2]; rfl⟩

/-! ## Submitting a sequence of tasks -/

theorem submit_foldl_spec (l : List futuretask) :
    ∀ s : trampoline,
      l.foldl (fun s t => (trampoline.Schedule s t.due t.runid t.cancel).2) s
        = ⟨enqueueAll l s.tasks, s.current⟩ := by
  induction l with
  | nil => intro s; rfl
  | cons t l ih =>
    intro s
    have hstep : (trampoline.Schedule s t.due t.runid t.cancel).2
        = (⟨sortStable (s.tasks ++ [t]), s.current⟩ : trampoline) := rfl
    show l.foldl _ (trampoline.Schedule s t.due t.runid t.cancel).2 = _
    rw [hstep, ih]
    rfl

theorem submitAll_spec (l : List futuretask) :
    submitAll l = ⟨enqueueAll l [], none⟩ :=
  submit_foldl_spec l ⟨[], none⟩

theorem tagTasks_runid_ge :
    ∀ (ats : List Int) (i : Nat), ∀ t ∈ tagTasks ats i, i ≤ t.runid := by
  intro ats
  induction ats with
  | nil => intro i t ht; cases ht
  | cons a rest ih =>
    intro i t ht
    rcases List.mem_cons.mp ht with h | h
    · subst h; exact le_rfl
    · exact le_trans (Nat.le_succ i) (ih (i + 1) t h)

theorem tagTasks_pairwise (ats : List Int) :
    ∀ i : Nat, (tagTasks ats i).Pairwise (fun a b => a.runid < b.runid) := by
  induction ats with
  | nil => intro i; exact List.Pairwise.nil
  | cons a rest ih =>
    intro i
    rw [tagTasks, List.pairwise_cons]
    exact ⟨fun t ht => lt_of_lt_of_le (Nat.lt_succ_self i)
      (tagTasks_runid_ge rest (i + 1) t ht), ih (i + 1)⟩

/-! ## Recursive chains on the serial scheduler -/

theorem range_map_add_succ (i k : Nat) :
    i :: (List.range k).map (fun j => i + 1 + j)
      = (List.range (k + 1)).map (fun j => i + j) := by
  rw [List.range_succ_eq_map, List.map_cons, List.map_map]
  refine congrArg₂ _ (by omega) (List.map_congr_left (fun j _ => ?_))
  simp only [Function.comp_apply]
  omega

/-- The drain of a recursive chain executes the iterations serially, in
iteration order: the executed ids are an initial segment `i, i+1, ...` of the
iteration sequence. -/
theorem Wait_chain (body : Nat → Bool) :
    ∀ (fuel i : Nat) (now a : Int), ∃ k : Nat,
      (trampoline.Wait (chainEff body) fuel [] now ⟨[⟨a, i, 0⟩], none⟩).2.2.2
        = (List.range k).map (fun j => i + j) := by
  intro fuel
  induction fuel with
  | zero =>
    intro i now a
    exact ⟨0, rfl⟩
  | succ fuel ih =>
    intro i now a
    have hr := RunTask_cons_run (chainEff body) [] now ⟨a, i, 0⟩ [] none (by simp)
    by_cases hb : body i
    · have heff : chainEff body i (max now a) = ([⟨max now a, i + 1, 0⟩], []) := by
        simp [chainEff, hb]
      rw [heff] at hr
      obtain ⟨k, hk⟩ := ih (i + 1) (max now a) (max now a)
      refine ⟨k + 1, ?_⟩
      have hstep : (trampoline.Wait (chainEff body) (fuel + 1) [] now
            ⟨[⟨a, i, 0⟩], none⟩).2.2.2
          = i :: (trampoline.Wait (chainEff body) fuel [] (max now a)
            ⟨[⟨max now a, i + 1, 0⟩], none⟩).2.2.2 := by
        rw [trampoline.Wait, hr]
        rfl
      rw [hstep, hk]
      exact range_map_add_succ i k
    · have heff : chainEff body i (max now a) = ([], []) := by
        simp [chainEff, hb]
      rw [heff] at hr
      refine ⟨1, ?_⟩
      have hstep : (trampoline.Wait (chainEff body) (fuel + 1) [] now
            ⟨[⟨a, i, 0⟩], none⟩).2.2.2
          = i :: (trampoline.Wait (chainEff body) fuel [] (max now a)
            ⟨[], none⟩).2.2.2 := by
        rw [trampoline.Wait, hr]
        rfl
      rw [hstep, Wait_nil]
      simpa using range_map_add_succ i 0

/-- Drain of a canceled chain: once the shared cancellation channel is
closed, every pop skips, nothing new is scheduled, and the queue drains. -/
theorem Wait_chain_canceled (c : Nat) (d : Int) :
    ∀ (fuel : Nat) (j : Nat) (now a : Int),
      (trampoline.Wait (chainCancelEff c d) (fuel + 1) [0] now ⟨[⟨a, j, 0⟩], none⟩)
        = (true, ⟨[], none⟩, max now a, []) := by
  intro fuel j now a
  have hr := RunTask_cons_skip (chainCancelEff c d) [0] now ⟨a, j, 0⟩ [] none
    (by simp)
  have hstep : trampoline.Wait (chainCancelEff c d) (fuel + 1) [0] now
        ⟨[⟨a, j, 0⟩], none⟩
      = ((trampoline.Wait (chainCancelEff c d) fuel [0] (max now a) ⟨[], none⟩).1,
         (trampoline.Wait (chainCancelEff c d) fuel [0] (max now a) ⟨[], none⟩).2.1,
         (trampoline.Wait (chainCancelEff c d) fuel [0] (max now a) ⟨[], none⟩).2.2.1,
         (trampoline.Wait (chainCancelEff c d) fuel [0] (max now a) ⟨[], none⟩).2.2.2) := by
    rw [trampoline.Wait, hr]
    rfl
  rw [hstep, Wait_nil]

/-- Drain of the always-rescheduling chain whose iteration `c` cancels the
shared Runner: exactly the iterations `i, ..., c` execute, then the pending
iteration `c + 1` is skipped and the drain completes. -/
theorem Wait_chain_cancel_at (c : Nat) (d : Int) :
    ∀ (n i : Nat) (now a : Int), i + n = c →
      (trampoline.Wait (chainCancelEff c d) (n + 2) [] now ⟨[⟨a, i, 0⟩], none⟩).1
          = true
      ∧ (trampoline.Wait (chainCancelEff c d) (n + 2) [] now ⟨[⟨a, i, 0⟩], none⟩).2.1
          = ⟨[], none⟩
      ∧ (trampoline.Wait (chainCancelEff c d) (n + 2) [] now ⟨[⟨a, i, 0⟩], none⟩).2.2.2
          = (List.range (n + 1)).map (fun j => i + j) := by
  intro n
  induction n with
  | zero =>
    intro i now a hi
    obtain rfl : i = c := by omega
    have hr := RunTask_cons_run (chainCancelEff i d) [] now ⟨a, i, 0⟩ [] none
      (by simp)
    have heff : chainCancelEff i d i (max now a)
        = ([⟨max now a + d, i + 1, 0⟩], [0]) := by
      simp [chainCancelEff]
    rw [heff] at hr
    have hstep : trampoline.Wait (chainCancelEff i d) 2 [] now ⟨[⟨a, i, 0⟩], none⟩
        = ((trampoline.Wait (chainCancelEff i d) 1 [0] (max now a)
              ⟨[⟨max now a + d, i + 1, 0⟩], none⟩).1,
           (trampoline.Wait (chainCancelEff i d) 1 [0] (max now a)
              ⟨[⟨max now a + d, i + 1, 0⟩], none⟩).2.1,
           (trampoline.Wait (chainCancelEff i d) 1 [0] (max now a)
              ⟨[⟨max now a + d, i + 1, 0⟩], none⟩).2.2.1,
           i :: (trampoline.Wait (chainCancelEff i d) 1 [0] (max now a)
              ⟨[⟨max now a + d, i + 1, 0⟩], none⟩).2.2.2) := by
      rw [trampoline.Wait, hr]
      rfl
    rw [hstep, Wait_chain_canceled]
    refine ⟨rfl, rfl, ?_⟩
    simpa using range_map_add_succ i 0
  | succ n ih =>
    intro i now a hi
    have hr := RunTask_cons_run (chainCancelEff c d) [] now ⟨a, i, 0⟩ [] none
      (by simp)
    have hne : i ≠ c := by omega
    have heff : chainCancelEff c d i (max now a)
        = ([⟨max now a + d, i + 1, 0⟩], []) := by
      simp [chainCancelEff, hne]
    rw [heff] at hr
    have hstep : trampoline.Wait (chainCancelEff c d) (n + 1 + 2) [] now
          ⟨[⟨a, i, 0⟩], none⟩
        = ((trampoline.Wait (chainCancelEff c d) (n + 2) [] (max now a)
              ⟨[⟨max now a + d, i + 1, 0⟩], none⟩).1,
           (trampoline.Wait (chainCancelEff c d) (n + 2) [] (max now a)
              ⟨[⟨max now a + d, i + 1, 0⟩], none⟩).2.1,
           (trampoline.Wait (chainCancelEff c d) (n + 2) [] (max now a)
              ⟨[⟨max now a + d, i + 1, 0⟩], none⟩).2.2.1,
           i :: (trampoline.Wait (chainCancelEff c d) (n + 2) [] (max now a)
              ⟨[⟨max now a + d, i + 1, 0⟩], none⟩).2.2.2) := by
      show trampoline.Wait (chainCancelEff c d) (n + 2 + 1) [] now _ = _
      rw [trampoline.Wait, hr]
      rfl
    have hih := ih (i + 1) (max now a) (max now a + d) (by omega)
    rw [hstep]
    refine ⟨hih.1, hih.2.1, ?_⟩
    rw [hih.2.2]
    exact range_map_add_succ i (n + 1)

/-! ## The drain-completion invariant -/

theorem Wait_complete_empty (eff : Nat → Int → List futuretask × List Nat) :
    ∀ (fuel : Nat) (closed : List Nat) (now : Int) (s : trampoline),
      s.current = none →
      (trampoline.Wait eff fuel closed now s).1 = true →
      (trampoline.Wait eff fuel closed now s).2.1.tasks = []
      ∧ (trampoline.Wait eff fuel closed now s).2.1.current = none := by
  intro fuel
  induction fuel with
  | zero =>
    intro closed now s hcur hdone
    have : s.tasks.isEmpty = true := hdone
    exact ⟨List.isEmpty_iff.mp this, hcur⟩
  | succ fuel ih =>
    intro closed now s hcur hdone
    obtain ⟨tasks, cur⟩ := s
    cases tasks with
    | nil =>
      exact ⟨rfl, hcur⟩
    | cons t rest =>
      by_cases hmem : t.cancel ∈ closed
      · have hr := RunTask_cons_skip eff closed now t rest cur hmem
        have hstep : trampoline.Wait eff (fuel + 1) closed now ⟨t :: rest, cur⟩
            = ((trampoline.Wait eff fuel closed (max now t.due) ⟨rest, none⟩).1,
               (trampoline.Wait eff fuel closed (max now t.due) ⟨rest, none⟩).2.1,
               (trampoline.Wait eff fuel closed (max now t.due) ⟨rest, none⟩).2.2.1,
               (trampoline.Wait eff fuel closed (max now t.due) ⟨rest, none⟩).2.2.2) := by
          rw [trampoline.Wait, hr]
          rfl
        rw [hstep] at hdone ⊢
        exact ih closed (max now t.due) ⟨rest, none⟩ rfl hdone
      · have hr := RunTask_cons_run eff closed now t rest cur hmem
        have hstep : trampoline.Wait eff (fuel + 1) closed now ⟨t :: rest, cur⟩
            = ((trampoline.Wait eff fuel (closed ++ (eff t.runid (max now t.due)).2)
                  (max now t.due)
                  ⟨enqueueAll (eff t.runid (max now t.due)).1 rest, none⟩).1,
               (trampoline.Wait eff fuel (closed ++ (eff t.runid (max now t.due)).2)
                  (max now t.due)
                  ⟨enqueueAll (eff t.runid (max now t.due)).1 rest, none⟩).2.1,
               (trampoline.Wait eff fuel (closed ++ (eff t.runid (max now t.due)).2)
                  (max now t.due)
                  ⟨enqueueAll (eff t.runid (max now t.due)).1 rest, none⟩).2.2.1,
               t.runid :: (trampoline.Wait eff fuel
                  (closed ++ (eff t.runid (max now t.due)).2) (max now t.due)
                  ⟨enqueueAll (eff t.runid (max now t.due)).1 rest, none⟩).2.2.2) := by
          rw [trampoline.Wait, hr]
          rfl
        rw [hstep] at hdone ⊢
        exact ih _ _ _ rfl hdone

/-! ## The concurrent scheduler's counters -/

theorem goReach_inv {s : GoState} (h : GoReach s) :
    s.active = (s.inflight : Int) ∧ s.wg = s.inflight := by
  induction h with
  | init => exact ⟨rfl, rfl⟩
  | @step s1 s2 _ hstep ih =>
    cases hstep with
    | spawn =>
      refine ⟨?_, ?_⟩
      · show s1.active + 1 = ((s1.inflight + 1 : Nat) : Int)
        rw [ih.1]
        push_cast
        ring
      · show s1.wg + 1 = s1.inflight + 1
        rw [ih.2]
    | finish hpos =>
      refine ⟨?_, ?_⟩
      · show s1.active - 1 = ((s1.inflight - 1 : Nat) : Int)
        rw [ih.1]
        omega
      · show s1.wg - 1 = s1.inflight - 1
        rw [ih.2]

/-! ## Immediate versus serial execution -/

theorem runActs_append (A B : List Act) :
    runActs (A ++ B) = runActs A ++ runActs B := by
  induction A with
  | nil => rfl
  | cons a A ih => simp [runActs, ih, List.append_assoc]

theorem runActs_sched_cons (T B : List Act) :
    runActs (Act.sched T :: B) = runActs T ++ runActs B := by
  simp [runActs, runAct]

theorem trampoline_eq_empty {s : trampoline} (h1 : s.tasks = [])
    (h2 : s.current = none) : s = ⟨[], none⟩ := by
  cases s
  cases h1
  cases h2
  rfl

/-! ## The claims -/

/-- C1: tasks submitted to one serial (trampoline) scheduler instance are
executed by the drain (`Wait`) in ascending due-time order, with ties
executed in enqueue order (stable FIFO): the queue built by the submissions
is sorted by due time, within each due-time class the submission ids appear
in submission order, every submission is present exactly once, and the drain
executes the queue front to back. -/
theorem C1_serial_drain_order (ats : List Int) :
    (trampoline.Wait noEff (submitAll (tagTasks ats 0)).tasks.length [] 0
        (submitAll (tagTasks ats 0))).1 = true
    ∧ (trampoline.Wait noEff (submitAll (tagTasks ats 0)).tasks.length [] 0
        (submitAll (tagTasks ats 0))).2.2.2
      = (submitAll (tagTasks ats 0)).tasks.map (fun t => t.runid)
    ∧ (submitAll (tagTasks ats 0)).tasks.Pairwise atLE
    ∧ (∀ d : Int,
        ((submitAll (tagTasks ats 0)).tasks.filter
            (fun u => decide (u.due = d))).map (fun t => t.runid)
          = ((tagTasks ats 0).filter
            (fun u => decide (u.due = d))).map (fun t => t.runid))
    ∧ (∀ d : Int,
        (((submitAll (tagTasks ats 0)).tasks.filter
            (fun u => decide (u.due = d))).map (fun t => t.runid)).Pairwise (· < ·))
    ∧ (submitAll (tagTasks ats 0)).tasks.Perm (tagTasks ats 0) := by
  rw [submitAll_spec]
  refine ⟨(Wait_noEff_drains _ 0).1, (Wait_noEff_drains _ 0).2.2,
    enqueueAll_pairwise _ _ List.Pairwise.nil, ?_, ?_, ?_⟩
  · intro d
    rw [enqueueAll_filter]
    rfl
  · intro d
    rw [enqueueAll_filter]
    refine List.pairwise_map.mpr ?_
    exact List.Pairwise.sublist (List.filter_sublist _) (tagTasks_pairwise ats 0)
  · exact enqueueAll_perm _ _

/-- C2: on the serial scheduler, both wait strategies observe the
cancellation signal before invoking the task: if the signal is closed at the
instant the wait ends (`max now t.due`, when the task would begin), the task
body is never executed and the entry is skipped silently; if the signal is
open through that instant, the body runs; and the result of either strategy
does not depend on the signal's state after that instant — cancellation
observed after the task has begun cannot interrupt it. -/
theorem C2_cancel_checked_before_run (closedAt : Int → Bool) (t : futuretask)
    (now : Int)
    (hM : ∀ a b : Int, a ≤ b → closedAt a = true → closedAt b = true) :
    (closedAt (max now t.due) = true →
      ShortWaitAndRun closedAt t now = none
      ∧ LongWaitAndRun closedAt t now = none)
    ∧ (closedAt (max now t.due) = false →
      ShortWaitAndRun closedAt t now = some t.runid
      ∧ LongWaitAndRun closedAt t now = some t.runid)
    ∧ (∀ g : Int → Bool, (∀ m : Int, m ≤ max now t.due → g m = closedAt m) →
      ShortWaitAndRun g t now = ShortWaitAndRun closedAt t now
      ∧ LongWaitAndRun g t now = LongWaitAndRun closedAt t now) := by
  have hbr : now + (((t.due - now).toNat : Nat) : Int) = max now t.due := by
    omega
  refine ⟨fun hc => ⟨?_, ?_⟩, fun ho => ⟨?_, ?_⟩, fun g hg => ⟨?_, ?_⟩⟩
  · unfold ShortWaitAndRun
    exact shortLoop_closed_end closedAt t.runid _ now (by rw [hbr]; exact hc)
  · unfold LongWaitAndRun
    by_cases h0 : 0 < t.due - now
    · have hmax : max now t.due = t.due := by omega
      rw [hmax] at hc
      simp [h0, hc]
    · have hmax : max now t.due = now := by omega
      rw [hmax] at hc
      simp [h0, hc]
  · unfold ShortWaitAndRun
    refine shortLoop_all_open closedAt t.runid _ now (fun m h1 h2 => ?_)
    have hm : m ≤ max now t.due := by omega
    cases hcm : closedAt m
    · rfl
    · exact absurd (hM m (max now t.due) hm hcm) (by simp [ho])
  · have hnow : closedAt now = false := by
      cases hcm : closedAt now
      · rfl
      · exact absurd (hM now (max now t.due) (le_max_left _ _) hcm)
          (by simp [ho])
    have hdue : closedAt t.due = false := by
      cases hcm : closedAt t.due
      · rfl
      · exact absurd (hM t.due (max now t.due) (le_max_right _ _) hcm)
          (by simp [ho])
    unfold LongWaitAndRun
    split
    · simp [hdue]
    · simp [hnow]
  · unfold ShortWaitAndRun
    refine shortLoop_congr closedAt g t.runid _ now (fun m h1 h2 => ?_)
    exact hg m (by omega)
  · unfold LongWaitAndRun
    split
    · rw [hg t.due (le_max_right _ _)]
    · rw [hg now (le_max_left _ _)]

/-- Witness for C2 at a concrete input: a task due at 5 popped at instant 0
whose signal is already closed is skipped by both strategies. -/
theorem C2_witness :
    ShortWaitAndRun (fun _ => true) ⟨5, 3, 0⟩ 0 = none
    ∧ LongWaitAndRun (fun _ => true) ⟨5, 3, 0⟩ 0 = none :=
  (C2_cancel_checked_before_run (fun _ => true) ⟨5, 3, 0⟩ 0
    (fun _ _ _ h => h)).1 rfl

/-- C3: the concurrent scheduler's `ScheduleRecursive` (and
`ScheduleFutureRecursive`) starts exactly one execution unit; that unit
creates a fresh private serial scheduler whose queue, after the initial
schedule, holds exactly the first entry; the Runner returned to the caller
is that first entry's Runner, handed back through the one-slot channel
before the drain proceeds (it does not depend on the drain fuel); and the
drain of the private scheduler executes the self-rescheduling chain
serially, as an initial segment of the iteration sequence `0, 1, 2, ...`. -/
theorem C3_concurrent_recursive_delegation (body : Nat → Bool) (due : Int)
    (fuel : Nat) (now : Int) :
    (goroutine.ScheduleRecursive body fuel now).unitsStarted = 1
    ∧ (goroutine.ScheduleRecursive body fuel now).runner
        = (trampoline.ScheduleRecursive MakeTrampoline now 0 0).1.cancel
    ∧ (trampoline.ScheduleRecursive MakeTrampoline now 0 0).2.tasks
        = [(trampoline.ScheduleRecursive MakeTrampoline now 0 0).1]
    ∧ (goroutine.ScheduleRecursive body fuel now).runner
        = (goroutine.ScheduleRecursive body 0 now).runner
    ∧ (∃ k : Nat, (goroutine.ScheduleRecursive body fuel now).trace
        = List.range k)
    ∧ (goroutine.ScheduleFutureRecursive body due fuel now).unitsStarted = 1
    ∧ (goroutine.ScheduleFutureRecursive body due fuel now).runner
        = (trampoline.ScheduleFutureRecursive MakeTrampoline now due 0 0).1.cancel
    ∧ (trampoline.ScheduleFutureRecursive MakeTrampoline now due 0 0).2.tasks
        = [(trampoline.ScheduleFutureRecursive MakeTrampoline now due 0 0).1]
    ∧ (goroutine.ScheduleFutureRecursive body due fuel now).runner
        = (goroutine.ScheduleFutureRecursive body due 0 now).runner
    ∧ (∃ k : Nat, (goroutine.ScheduleFutureRecursive body due fuel now).trace
        = List.range k) := by
  refine ⟨rfl, rfl, rfl, rfl, ?_, rfl, rfl, rfl, rfl, ?_⟩
  · obtain ⟨k, hk⟩ := Wait_chain body fuel 0 now now
    refine ⟨k, ?_⟩
    have h2 : (goroutine.ScheduleRecursive body fuel now).trace
        = (trampoline.Wait (chainEff body) fuel [] now
            ⟨[⟨now, 0, 0⟩], none⟩).2.2.2 := rfl
    rw [h2, hk]
    simp
  · obtain ⟨k, hk⟩ := Wait_chain body fuel 0 now (now + due)
    refine ⟨k, ?_⟩
    have h2 : (goroutine.ScheduleFutureRecursive body due fuel now).trace
        = (trampoline.Wait (chainEff body) fuel [] now
            ⟨[⟨now + due, 0, 0⟩], none⟩).2.2.2 := rfl
    rw [h2, hk]
    simp

/-- C4 counterexample: the claim says a second `Cancel` does not panic.  On
the code, the first `Cancel` closes the channel, and the second `Cancel`
reaches `close` again (for `futuretask.Cancel` the nil-guard does not detect
a closed channel; the goroutine `cancel.Cancel` has no guard at all), and
closing a closed channel panics at run time. -/
theorem C4_counterexample :
    (futuretask.Cancel (some ChanState.opened)).bind futuretask.Cancel
        = Except.error "close of closed channel"
    ∧ (cancel.Cancel ChanState.opened).bind cancel.Cancel
        = Except.error "close of closed channel" :=
  ⟨rfl, rfl⟩

/-- C4 (amended): the first `Cancel` on a Runner succeeds and closes the
cancellation channel, but `Cancel` is not idempotent: a second call panics
with "close of closed channel" — for both the serial scheduler's
`futuretask.Cancel` (whose nil-guard only protects a nil channel, not a
closed one) and the concurrent scheduler's `cancel.Cancel`. -/
theorem C4_second_cancel_panics :
    futuretask.Cancel (some ChanState.opened) = Except.ok (some ChanState.closed)
    ∧ futuretask.Cancel (some ChanState.closed)
        = Except.error "close of closed channel"
    ∧ futuretask.Cancel none = Except.ok none
    ∧ cancel.Cancel ChanState.opened = Except.ok ChanState.closed
    ∧ cancel.Cancel ChanState.closed = Except.error "close of closed channel" :=
  ⟨rfl, rfl, rfl, rfl, rfl⟩

/-- C5 counterexample: the claim says that when an insertion makes the queue
go from 0 to 1 entries, the calling thread drains in-line before `Schedule`
returns (so on return the task would already have run and the queue would be
empty).  On the code, `Schedule` on the empty scheduler only inserts: when
the call returns the new entry is still queued and `Count` is 1, not 0 (the
repo's own test `Example_serial` shows `BEFORE WAIT` printed before any task
output). -/
theorem C5_counterexample :
    (trampoline.Schedule New 0 0 0).2.tasks = [⟨0, 0, 0⟩]
    ∧ trampoline.Count (trampoline.Schedule New 0 0 0).2 = 1 :=
  ⟨rfl, rfl⟩

/-- C5 (amended): `Schedule`/`ScheduleFuture` always enqueue only — the new
entry is inserted into the queue by a stable insert sorted by due time, and
the call returns with the entry left pending for a later `Wait` (or
`RunTask`/`Gosched`); the calling thread never drains in-line during
`Schedule`, even on a 0 → 1 queue-length transition. -/
theorem C5_schedule_enqueues_only (s : trampoline) (now : Int) (rid can : Nat)
    (hs : s.tasks.Pairwise atLE) :
    (trampoline.Schedule s now rid can).2.tasks
        = insertEnd ⟨now, rid, can⟩ s.tasks
    ∧ (⟨now, rid, can⟩ : futuretask) ∈ (trampoline.Schedule s now rid can).2.tasks
    ∧ (trampoline.Schedule s now rid can).2.tasks.length = s.tasks.length + 1
    ∧ (trampoline.Schedule s now rid can).2.tasks.Pairwise atLE
    ∧ (trampoline.Schedule s now rid can).2.current = s.current := by
  have h1 : (trampoline.Schedule s now rid can).2.tasks
      = sortStable (s.tasks ++ [⟨now, rid, can⟩]) := rfl
  refine ⟨?_, ?_, ?_, ?_, rfl⟩
  · rw [h1]
    exact sortStable_sorted_snoc _ hs
  · rw [h1]
    exact (sortStable_perm _).mem_iff.mpr (by simp)
  · rw [h1, (sortStable_perm _).length_eq]
    simp
  · rw [h1]
    exact sortStable_pairwise _

/-- Witness for C5 (amended) at a concrete input: scheduling on the empty
scheduler leaves the entry queued. -/
theorem C5_witness :
    (trampoline.Schedule New 3 1 2).2.tasks = insertEnd ⟨3, 1, 2⟩ []
    ∧ (⟨3, 1, 2⟩ : futuretask) ∈ (trampoline.Schedule New 3 1 2).2.tasks :=
  ⟨(C5_schedule_enqueues_only New 3 1 2 List.Pairwise.nil).1,
   (C5_schedule_enqueues_only New 3 1 2 List.Pairwise.nil).2.1⟩

/-- C6: when `Wait` returns, `Count` is 0, on both scheduler types.  For the
serial scheduler the drain loop only stops when `RunTask` finds the queue
genuinely empty — including work scheduled by running tasks (arbitrary
`eff`) — never at a fixed snapshot.  For the concurrent scheduler, `Wait`
unblocks only when the WaitGroup counter is zero, and in every reachable
state that forces the active count (`Count`) to zero. -/
theorem C6_wait_then_count_zero :
    (∀ (eff : Nat → Int → List futuretask × List Nat) (fuel : Nat)
        (closed : List Nat) (now : Int) (s : trampoline),
      s.current = none →
      (trampoline.Wait eff fuel closed now s).1 = true →
      trampoline.Count (trampoline.Wait eff fuel closed now s).2.1 = 0)
    ∧ (∀ s : GoState, GoReach s → goroutine.waitDone s = true →
      goroutine.Count s = 0) := by
  constructor
  · intro eff fuel closed now s hcur hdone
    have h := Wait_complete_empty eff fuel closed now s hcur hdone
    rw [trampoline_eq_empty h.1 h.2]
    rfl
  · intro s hreach hdone
    obtain ⟨ha, hw⟩ := goReach_inv hreach
    have hwg : s.wg = 0 := by simpa [goroutine.waitDone] using hdone
    show s.active = 0
    omega

/-- Witness for C6 at concrete inputs: a drained trampoline and the initial
concurrent scheduler state both report zero. -/
theorem C6_witness :
    trampoline.Count (trampoline.Wait noEff 1 [] 0 New).2.1 = 0
    ∧ goroutine.Count ⟨0, 0, 0⟩ = 0 :=
  ⟨C6_wait_then_count_zero.1 noEff 1 [] 0 New rfl rfl,
   C6_wait_then_count_zero.2 ⟨0, 0, 0⟩ GoReach.init rfl⟩

/-- C7: the concurrent scheduler's active-task counter is incremented before
each execution unit starts and decremented exactly once in the
guaranteed-run cleanup when the unit finishes or is skipped after observing
cancellation (the `GoStep` protocol).  In every reachable state the counter
is ≥ 0 and equals the number of units in flight, and `Wait` unblocks (the
WaitGroup reaches zero) exactly when the counter is zero. -/
theorem C7_active_count_invariant (s : GoState) (h : GoReach s) :
    0 ≤ s.active
    ∧ s.active = (s.inflight : Int)
    ∧ (goroutine.waitDone s = true ↔ s.active = 0) := by
  obtain ⟨ha, hw⟩ := goReach_inv h
  refine ⟨by omega, ha, ?_⟩
  unfold goroutine.waitDone
  constructor
  · intro hb
    have hwg : s.wg = 0 := by simpa using hb
    omega
  · intro hb
    have hwg : s.wg = 0 := by omega
    simpa using hwg

/-- Witness for C7 at a concrete reachable state: after one spawn, the
counter is 1 and `Wait` would not unblock. -/
theorem C7_witness :
    0 ≤ (GoState.mk 1 1 1).active
    ∧ (GoState.mk 1 1 1).active = ((GoState.mk 1 1 1).inflight : Int)
    ∧ (goroutine.waitDone ⟨1, 1, 1⟩ = true ↔ (GoState.mk 1 1 1).active = 0) :=
  C7_active_count_invariant ⟨1, 1, 1⟩
    (GoReach.step GoReach.init (GoStep.spawn ⟨0, 0, 0⟩))

/-- C8: the Immediate scheduler's `Schedule` runs the task synchronously in
the caller's own thread of control — a nested `Schedule` call executes
depth-first, the inner task completing before the outer task continues —
and `ScheduleFuture` first sleeps for the requested (non-negative part of
the) delay and then runs the task the same way; unlike the serial scheduler,
where a task scheduled from inside a running task is only enqueued and runs
after the outer task finishes (breadth-first), as the contrasting concrete
run shows. -/
theorem C8_immediate_depth_first :
    (∀ A B T : List Act,
      runActs (A ++ Act.sched T :: B) = runActs A ++ runActs T ++ runActs B)
    ∧ (∀ (now due : Int) (task : List Act),
      immediate.ScheduleFuture now due task
        = (now + max due 0, immediate.Schedule task))
    ∧ immediate.Schedule [Act.emit 10, Act.sched [Act.emit 30], Act.emit 20]
        = [10, 30, 20]
    ∧ serialDrain 4 [[Act.emit 10, Act.sched [Act.emit 30], Act.emit 20]]
        = [10, 20, 30] := by
  refine ⟨?_, fun now due task => rfl, ?_, ?_⟩
  · intro A B T
    rw [runActs_append, runActs_sched_cons, ← List.append_assoc]
  · simp [immediate.Schedule, runActs, runAct]
  · simp [serialDrain, splitActs]

/-- C9: a `ScheduleFuture` whose due time has already passed at submission
(`due ≤ 0`) is not an error: the operation is total, the task is accepted
into the queue (with `at = now + due ≤ now`), and at the next drain step it
is immediately eligible — `RunTask` executes it at once, without advancing
the clock. -/
theorem C9_past_due_accepted (s : trampoline) (now due : Int) (rid can : Nat)
    (h : due ≤ 0) :
    (trampoline.ScheduleFuture s now due rid can).1 = ⟨now + due, rid, can⟩
    ∧ (⟨now + due, rid, can⟩ : futuretask)
        ∈ (trampoline.ScheduleFuture s now due rid can).2.tasks
    ∧ (trampoline.ScheduleFuture s now due rid can).2.tasks.length
        = s.tasks.length + 1
    ∧ ∀ (rest : List futuretask) (eff : Nat → Int → List futuretask × List Nat),
        trampoline.RunTask eff [] now ⟨⟨now + due, rid, can⟩ :: rest, none⟩
          = some (⟨enqueueAll (eff rid now).1 rest, none⟩, (eff rid now).2, now,
                  some rid) := by
  refine ⟨rfl, ?_, ?_, ?_⟩
  · exact (sortStable_perm _).mem_iff.mpr (by simp)
  · show (sortStable (s.tasks ++ [⟨now + due, rid, can⟩])).length = _
    rw [(sortStable_perm _).length_eq]
    simp
  · intro rest eff
    have hr := RunTask_cons_run eff [] now ⟨now + due, rid, can⟩ rest none
      (by simp)
    have hd : (⟨now + due, rid, can⟩ : futuretask).due = now + due := rfl
    have hrid : (⟨now + due, rid, can⟩ : futuretask).runid = rid := rfl
    have hmax : max now (now + due) = now := by omega
    rw [hd, hrid, hmax, List.nil_append] at hr
    exact hr

/-- Witness for C9 at a concrete input: a task submitted at instant 5 with
due −3 is queued at instant 2 and runs at once on the next drain step. -/
theorem C9_witness :
    (⟨2, 2, 7⟩ : futuretask) ∈ (trampoline.ScheduleFuture New 5 (-3) 2 7).2.tasks
    ∧ trampoline.RunTask noEff [] 5 ⟨[⟨2, 2, 7⟩], none⟩
        = some (⟨[], none⟩, [], 5, some 2) := by
  have h := C9_past_due_accepted New 5 (-3) 2 7 (by norm_num)
  exact ⟨h.2.1, h.2.2.2 [] noEff⟩

/-- C10: one `ScheduleRecursive` (or `ScheduleFutureRecursive`, delay `d`)
chain shares the single cancellation channel of the returned Runner: every
iteration appended by `again` carries channel 0, the channel of the first
entry.  In a chain whose task always reschedules itself and whose iteration
`c` calls the Runner's `Cancel`, the drain executes exactly iterations
`0, ..., c`: the already-queued iteration `c + 1` is skipped and no later
iteration ever starts — not only the first pending one — and the queue
drains completely. -/
theorem C10_cancel_stops_whole_chain (c : Nat) (d : Int) (now : Int) :
    (trampoline.Wait (chainCancelEff c d) (c + 2) [] now
        (trampoline.ScheduleRecursive MakeTrampoline now 0 0).2).1 = true
    ∧ (trampoline.Wait (chainCancelEff c d) (c + 2) [] now
        (trampoline.ScheduleRecursive MakeTrampoline now 0 0).2).2.1
      = ⟨[], none⟩
    ∧ (trampoline.Wait (chainCancelEff c d) (c + 2) [] now
        (trampoline.ScheduleRecursive MakeTrampoline now 0 0).2).2.2.2
      = List.range (c + 1) := by
  have h := Wait_chain_cancel_at c d c 0 now now (by omega)
  refine ⟨h.1, h.2.1, ?_⟩
  have h3 : (trampoline.Wait (chainCancelEff c d) (c + 2) [] now
      (trampoline.ScheduleRecursive MakeTrampoline now 0 0).2).2.2.2
      = (List.range (c + 1)).map (fun j => 0 + j) := h.2.2
  rw [h3]
  simp
